import Mathlib

/-!
Shallow embedding of the easy_i18n crate (src/lib.rs).

The crate keeps an in-memory translation store
`I18n { lang : String, source : HashMap<String, Source> }`, where
`Source(HashMap<Namespace, HashMap<String, String>>)` maps a namespace to a
key-to-text table for one language.  Lookups fall back to returning the key
itself; a separate interpolator substitutes `%N` placeholders.

Rust's `HashMap<String, _>` is modelled as an association list whose `insert`
prepends, so `find?` sees the most recent insertion (Rust's `insert`
overwrites).  Rust's `str::to_uppercase` / `to_lowercase` are modelled by
mapping the ASCII `Char.toUpper` / `Char.toLower` over the characters; every
identifier the crate normalises this way in its own tests and docs is ASCII.
-/

namespace EasyI18n

/-- Association-list model of Rust's `HashMap<String, α>`. -/
def HMap (α : Type) : Type := List (String × α)

/-- `HashMap::get`: the value of the most recently inserted binding of `k`. -/
def HMap.find? {α : Type} (m : HMap α) (k : String) : Option α :=
  (List.find? (fun p => p.1 == k) m).map (fun p => p.2)

/-- `HashMap::insert`: the new binding shadows any older one. -/
def HMap.insert {α : Type} (m : HMap α) (k : String) (v : α) : HMap α :=
  (k, v) :: m

/-- `HashMap::new()`. -/
def HMap.empty {α : Type} : HMap α := []

/-- Model of Rust `str::to_uppercase` (ASCII fragment, per the note above),
character by character. -/
def toUppercase (s : String) : String := ⟨s.data.map Char.toUpper⟩

/-- Model of Rust `str::to_lowercase` (ASCII fragment), character by
character. -/
def toLowercase (s : String) : String := ⟨s.data.map Char.toLower⟩

/-- Rust: `pub struct Source(HashMap<Namespace, HashMap<String, String>>)`. -/
structure Source where
  table : HMap (HMap String)

/-- Rust `Source::get_val`:
```
let ns = ns.unwrap_or("common".to_string());
self.0.get(ns.as_str()).and_then(|map| map.get(key).map(|v| v.to_string()))
``` -/
def Source.get_val (s : Source) (key : String) (ns : Option String) : Option String :=
  let ns := ns.getD "common"
  (HMap.find? s.table ns).bind (fun map => HMap.find? map key)

/-- Rust: `pub struct I18n { lang: String, source: HashMap<String, Source> }`. -/
structure I18n where
  lang : String
  source : HMap Source

/-- Rust `I18n::new`: `I18n { lang: lang.to_uppercase(), source: HashMap::new() }`. -/
def I18n.new (lang : String) : I18n :=
  { lang := toUppercase lang, source := HMap.empty }

/-- Rust `I18n::set_lang`: `self.lang = lang.to_uppercase();`. -/
def I18n.set_lang (st : I18n) (lang : String) : I18n :=
  { st with lang := toUppercase lang }

/-- Rust `I18n::translate`:
```
self.source.get(self.lang.as_str())
    .and_then(|source| source.get_val(text, ns))
    .unwrap_or(text.to_string())
``` -/
def I18n.translate (st : I18n) (text : String) (ns : Option String) : String :=
  (((HMap.find? st.source st.lang).bind
      (fun source => source.get_val text ns)).getD text)

/-- The global registry `I18N` is lazily initialised as `I18n::new("cn")`. -/
def I18N_init : I18n := I18n.new "cn"

/-- The code-point ranges of Unicode general category `Nd` (decimal number),
per Unicode 15.0.0 — the character class the regex crate's Unicode-default
`\d` matches.  ASCII `0-9` is the first range. -/
def ndRanges : List (Nat × Nat) :=
  [(0x30, 0x39), (0x660, 0x669), (0x6F0, 0x6F9), (0x7C0, 0x7C9),
   (0x966, 0x96F), (0x9E6, 0x9EF), (0xA66, 0xA6F), (0xAE6, 0xAEF),
   (0xB66, 0xB6F), (0xBE6, 0xBEF), (0xC66, 0xC6F), (0xCE6, 0xCEF),
   (0xD66, 0xD6F), (0xDE6, 0xDEF), (0xE50, 0xE59), (0xED0, 0xED9),
   (0xF20, 0xF29), (0x1040, 0x1049), (0x1090, 0x1099), (0x17E0, 0x17E9),
   (0x1810, 0x1819), (0x1946, 0x194F), (0x19D0, 0x19D9), (0x1A80, 0x1A89),
   (0x1A90, 0x1A99), (0x1B50, 0x1B59), (0x1BB0, 0x1BB9), (0x1C40, 0x1C49),
   (0x1C50, 0x1C59), (0xA620, 0xA629), (0xA8D0, 0xA8D9), (0xA900, 0xA909),
   (0xA9D0, 0xA9D9), (0xA9F0, 0xA9F9), (0xAA50, 0xAA59), (0xABF0, 0xABF9),
   (0xFF10, 0xFF19), (0x104A0, 0x104A9), (0x10D30, 0x10D39),
   (0x11066, 0x1106F), (0x110F0, 0x110F9), (0x11136, 0x1113F),
   (0x111D0, 0x111D9), (0x112F0, 0x112F9), (0x11450, 0x11459),
   (0x114D0, 0x114D9), (0x11650, 0x11659), (0x116C0, 0x116C9),
   (0x11730, 0x11739), (0x118E0, 0x118E9), (0x11950, 0x11959),
   (0x11C50, 0x11C59), (0x11D50, 0x11D59), (0x11DA0, 0x11DA9),
   (0x11F50, 0x11F59), (0x16A60, 0x16A69), (0x16AC0, 0x16AC9),
   (0x16B50, 0x16B59), (0x1D7CE, 0x1D7FF), (0x1E140, 0x1E149),
   (0x1E2F0, 0x1E2F9), (0x1E4F0, 0x1E4F9), (0x1E950, 0x1E959),
   (0x1FBF0, 0x1FBF9)]

/-- `\d` of `INTER_REG`: membership in Unicode category `Nd`.  This is wider
than ASCII `Char.isDigit`; e.g. `isNd` holds of the Arabic-Indic digit `١`
(U+0661). -/
def isNd (c : Char) : Bool :=
  ndRanges.any (fun r => r.1 ≤ c.toNat && c.toNat ≤ r.2)

/-- Numeric value of a run of ASCII decimal digits, most significant first
(meaningful only when every character is an ASCII digit). -/
def digitsToNat (ds : List Char) : Nat :=
  ds.foldl (fun acc c => 10 * acc + (c.toNat - 48)) 0

/-- Rust `str::parse::<u8>()` applied to the text of a match with its `%`
removed: it succeeds exactly when every character is an ASCII digit and the
value fits in `u8`.  A run containing a non-ASCII `Nd` digit (which the regex
can match) fails the parse. -/
def parseU8 (ds : List Char) : Option Nat :=
  if ds.all Char.isDigit ∧ digitsToNat ds ≤ 255 then some (digitsToNat ds)
  else none

/-- `2 ^ 64`, the modulus of the crate's 64-bit `usize`. -/
def usizeMod : Nat := 2 ^ 64

/-- What the closure in `trans_with_inter` produces for one regex match `%ds`:
```
caps.get(0)
    .and_then(|m| m.as_str().replace('%', "").parse::<u8>().ok())
    .and_then(|v| vals.get(v as usize - 1))
    .map(|v| v.to_string())
    .unwrap_or("".to_string())
```
`v as usize - 1` is release-profile (wrapping) usize arithmetic, hence the
`% 2 ^ 64`; for `v = 0` the index wraps to `2 ^ 64 - 1`. -/
def matchReplacement (ds : List Char) (vals : List String) : String :=
  ((parseU8 ds).bind
    (fun v => vals.get? ((v + (usizeMod - 1)) % usizeMod))).getD ""

/-- `INTER_REG.replace_all` for the regex `%\d+`, over the character list:
leftmost scan; at a `%` the maximal run of following `\d` (Unicode `Nd`)
digits is taken; a nonempty run makes a match, which is replaced; every other
character is copied through, and scanning resumes after each match's original
span. -/
def interReplaceAll (vals : List String) : List Char → List Char
  | [] => []
  | c :: rest =>
    if c = '%' then
      let ds := rest.takeWhile isNd
      if ds.isEmpty then c :: interReplaceAll vals rest
      else (matchReplacement ds vals).data ++ interReplaceAll vals (rest.drop ds.length)
    else c :: interReplaceAll vals rest
termination_by l => l.length
decreasing_by
  · simp
  · simp [List.length_drop]
    omega
  · simp

/-- The whole replacement pass at the string level. -/
def interpolate (text : String) (vals : List String) : String :=
  ⟨interReplaceAll vals text.data⟩

/-- Rust `I18n::trans_with_inter`:
```
let new_text = self.translate(text, ns);
INTER_REG.replace_all(new_text.as_str(), |caps| { ... }).into_owned()
``` -/
def I18n.trans_with_inter (st : I18n) (text : String) (vals : List String)
    (ns : Option String) : String :=
  let new_text := st.translate text ns
  interpolate new_text vals

/-- One directory entry as `load_source` observes it: whether `entry.path()`
is a directory, the filename when it converts to UTF-8
(`path.file_name().and_then(|f| f.to_str())`, `none` when either step fails),
and the outcome of `Source::from_path` on the entry (`none` models `Err`). -/
structure DirEntry where
  isDir : Bool
  fileName : Option String
  parsed : Option Source

/-- Rust `str::rsplit_once('.')`: split around the last `.`, or `none` when
the string has no `.`. -/
def rsplitOnceDot (s : String) : Option (String × String) :=
  let r := s.data.reverse
  if r.contains '.' then
    some (⟨((r.dropWhile (fun c => c != '.')).tail).reverse⟩,
          ⟨(r.takeWhile (fun c => c != '.')).reverse⟩)
  else none

/-- The body of the `for entry in dir.flatten()` loop in `load_source`, for
one entry:
```
if !path.is_dir() {
    if let Some((file_name, file_type)) = path.file_name()
        .and_then(|f| f.to_str()).and_then(|f| f.rsplit_once('.')) {
        if file_type.to_lowercase() == *"json" {
            if let Ok(source) = Source::from_path(&path) {
                map.insert(file_name.to_uppercase(), source);
            } } } }
``` -/
def loadStep (map : HMap Source) (entry : DirEntry) : HMap Source :=
  if !entry.isDir then
    match entry.fileName.bind rsplitOnceDot with
    | some (file_name, file_type) =>
      if toLowercase file_type = "json" then
        match entry.parsed with
        | some source => HMap.insert map (toUppercase file_name) source
        | none => map
      else map
    | none => map
  else map

/-- Rust `load_source`.  `none` models `fs::read_dir(path)` returning `Err`;
the entry list is the `dir.flatten()` sequence (items that were I/O errors
already dropped), in filesystem iteration order. -/
def load_source (dir : Option (List DirEntry)) : HMap Source :=
  match dir with
  | none => HMap.empty
  | some entries => entries.foldl loadStep HMap.empty

/-- Rust `I18n::set_source`: `self.source = load_source(path);`. -/
def I18n.set_source (st : I18n) (dir : Option (List DirEntry)) : I18n :=
  { st with source := load_source dir }

/-- A concrete parsed source table, used by the witnesses below. -/
def sampleSource : Source := ⟨[("common", [("hi", "hello")])]⟩

/-- An ASCII decimal digit is in Unicode category `Nd` (its first range). -/
theorem isDigit_isNd (c : Char) (h : c.isDigit = true) : isNd c = true := by
  have hc : 48 ≤ c.toNat ∧ c.toNat ≤ 57 := by
    simp [Char.isDigit, UInt32.le_def, BitVec.le_def] at h
    exact h
  simp [isNd, ndRanges]
  omega

/-- If every character of `ds` is an `Nd` digit and `rest` does not start
with one, the maximal `Nd` run of `ds ++ rest` is exactly `ds`. -/
theorem takeWhile_nd_of_append (ds rest : List Char)
    (hds : ∀ c ∈ ds, isNd c = true)
    (hrest : ∀ d, rest.head? = some d → isNd d = false) :
    (ds ++ rest).takeWhile isNd = ds := by
  induction ds with
  | nil =>
    cases rest with
    | nil => rfl
    | cons d t => simp [List.takeWhile_cons, hrest d rfl]
  | cons c t ih =>
    have hc := hds c (by simp)
    simp only [List.cons_append, List.takeWhile_cons, hc, if_true]
    rw [ih (fun x hx => hds x (by simp [hx]))]

/-- A character other than `%` is copied through by the scanner. -/
theorem interReplaceAll_copy (vals : List String) (c : Char) (s : List Char)
    (h : c ≠ '%') :
    interReplaceAll vals (c :: s) = c :: interReplaceAll vals s := by
  rw [interReplaceAll]
  simp [h]

/-- A `%` not followed by an `Nd` digit is no match and is copied through. -/
theorem interReplaceAll_percent_nomatch (vals : List String) (s : List Char)
    (h : ∀ d, s.head? = some d → isNd d = false) :
    interReplaceAll vals ('%' :: s) = '%' :: interReplaceAll vals s := by
  rw [interReplaceAll]
  have hs : s.takeWhile isNd = [] := by
    cases s with
    | nil => rfl
    | cons d t => simp [List.takeWhile_cons, h d rfl]
  simp [hs]

/-- A `%` followed by a maximal nonempty `Nd` digit run `ds` is one match:
it is replaced by `matchReplacement ds vals`, and scanning resumes after
it. -/
theorem interReplaceAll_match (vals : List String) (ds rest : List Char)
    (hne : ds ≠ []) (hds : ∀ c ∈ ds, isNd c = true)
    (hrest : ∀ d, rest.head? = some d → isNd d = false) :
    interReplaceAll vals ('%' :: (ds ++ rest)) =
      (matchReplacement ds vals).data ++ interReplaceAll vals rest := by
  rw [interReplaceAll]
  rw [takeWhile_nd_of_append ds rest hds hrest]
  cases ds with
  | nil => exact absurd rfl hne
  | cons c t =>
    simp only [List.isEmpty_cons, Bool.false_eq_true, if_false, List.drop_left,
      if_true]

/-- An all-ASCII run with an in-range ordinal (`1 ≤ n ≤ 255`,
`n ≤ vals.length`) selects the n-th supplied value. -/
theorem matchReplacement_in_range (ds : List Char) (vals : List String)
    (hall : ds.all Char.isDigit = true)
    (h1 : 1 ≤ digitsToNat ds) (h2 : digitsToNat ds ≤ 255)
    (h3 : digitsToNat ds ≤ vals.length) :
    matchReplacement ds vals = vals.getD (digitsToNat ds - 1) "" := by
  have hM : usizeMod = 18446744073709551616 := by norm_num [usizeMod]
  have hidx : (digitsToNat ds + (usizeMod - 1)) % usizeMod =
      digitsToNat ds - 1 := by
    rw [hM]; omega
  have hlt : digitsToNat ds - 1 < vals.length := by omega
  unfold matchReplacement parseU8
  rw [if_pos ⟨hall, h2⟩]
  simp [hidx, List.get?_eq_getElem?, List.getElem?_eq_getElem hlt,
    List.getD_eq_getElem?_getD]

/-- A run that fails the `u8` parse (a non-ASCII digit in it, or value over
255), or whose ordinal is zero or exceeds the number of values, is replaced
by the empty string.  `hlen` says the value list is shorter than `2 ^ 64`,
true of every Rust `Vec`. -/
theorem matchReplacement_invalid (ds : List Char) (vals : List String)
    (hlen : vals.length < usizeMod)
    (h : ds.all Char.isDigit = false ∨ digitsToNat ds = 0 ∨
      255 < digitsToNat ds ∨ vals.length < digitsToNat ds) :
    matchReplacement ds vals = "" := by
  have hM : usizeMod = 18446744073709551616 := by norm_num [usizeMod]
  rw [hM] at hlen
  unfold matchReplacement parseU8
  rw [hM]
  by_cases hP : ds.all Char.isDigit = true ∧ digitsToNat ds ≤ 255
  · rw [if_pos hP]
    have hnum : digitsToNat ds = 0 ∨ vals.length < digitsToNat ds := by
      rcases h with hf | h0 | hgt | hlong
      · simp [hP.1] at hf
      · exact Or.inl h0
      · exact absurd hP.2 (by omega)
      · exact Or.inr hlong
    have hnone : vals.get? ((digitsToNat ds + (18446744073709551616 - 1)) %
        18446744073709551616) = none := by
      apply List.get?_eq_none.2
      rcases hnum with h0 | hlong
      · rw [h0]
        omega
      · have h255 := hP.2
        omega
    rw [Option.some_bind, hnone]
    rfl
  · rw [if_neg hP]
    rfl

/-- **C1.** If the store's tables have no entry for the active language, or the
language's table has no entry for the (supplied or defaulted) namespace, or the
namespace map has no entry for the key, then `translate` returns the key
unchanged. -/
theorem translate_identity_fallback (st : I18n) (k : String) (ns : Option String)
    (h : HMap.find? st.source st.lang = none ∨
      (∃ src, HMap.find? st.source st.lang = some src ∧
        (HMap.find? src.table (ns.getD "common") = none ∨
          (∃ m, HMap.find? src.table (ns.getD "common") = some m ∧
            HMap.find? m k = none)))) :
    st.translate k ns = k := by
  unfold I18n.translate Source.get_val
  rcases h with h | ⟨src, hsrc, h⟩
  · simp [h]
  · rcases h with h | ⟨m, hm, h⟩
    · simp [hsrc, h]
    · simp [hsrc, hm, h]

/-- Witness for C1: the freshly-constructed store translates "hi" to itself. -/
theorem translate_identity_fallback_witness :
    (I18n.new "en").translate "hi" none = "hi" :=
  translate_identity_fallback (I18n.new "en") "hi" none (Or.inl rfl)

/-- **C2.** A loaded mapping `(lang, ns, k) → v` is returned byte-for-byte:
after `set_lang lang`, `translate k (some ns)` is exactly the stored `v`. -/
theorem translate_returns_stored (st : I18n) (lang ns k v : String)
    (src : Source) (m : HMap String)
    (h1 : HMap.find? st.source (toUppercase lang) = some src)
    (h2 : HMap.find? src.table ns = some m)
    (h3 : HMap.find? m k = some v) :
    (st.set_lang lang).translate k (some ns) = v := by
  unfold I18n.translate I18n.set_lang Source.get_val
  simp [h1, h2, h3]

/-- Witness for C2: a store holding `EN/common/hi → hello` returns "hello". -/
theorem translate_returns_stored_witness :
    I18n.translate
      (I18n.set_lang
        { lang := "CN", source := [("EN", ⟨[("common", [("hi", "hello")])]⟩)] } "en")
      "hi" (some "common") = "hello" :=
  translate_returns_stored _ "en" "common" "hi" "hello"
    ⟨[("common", [("hi", "hello")])]⟩ [("hi", "hello")] rfl rfl rfl

/-- **C6.** Omitting the namespace is the same as supplying "common". -/
theorem translate_default_namespace (st : I18n) (k : String) :
    st.translate k none = st.translate k (some "common") := rfl

/-- **C10.** The global registry starts as `I18n::new("cn")`: active language
"CN" (uppercased) and an empty table map, so every `translate` call returns
the key unchanged. -/
theorem initial_store_identity :
    I18N_init.lang = "CN" ∧ I18N_init.source = HMap.empty ∧
      ∀ k ns, I18N_init.translate k ns = k := by
  refine ⟨rfl, rfl, fun k ns => ?_⟩
  unfold I18N_init I18n.new I18n.translate HMap.find? HMap.empty
  simp

/-- **C3.** The interpolator scans left to right for maximal matches of `%`
followed by one or more `\d` (Unicode `Nd`) digits: non-matching characters
(anything but `%`, and a `%` not followed by a digit) are copied through
unchanged, and a match whose digit run parses as an unsigned integer (all
ASCII digits, value `n` in `1..=255`) with at least `n` supplied values is
replaced by the n-th supplied value `vals[n-1]`. -/
theorem interpolation_substitutes_in_range (vals : List String) :
    (∀ c s, c ≠ '%' →
      interReplaceAll vals (c :: s) = c :: interReplaceAll vals s) ∧
    (∀ s, (∀ d, s.head? = some d → isNd d = false) →
      interReplaceAll vals ('%' :: s) = '%' :: interReplaceAll vals s) ∧
    (∀ ds rest, ds ≠ [] → (∀ c ∈ ds, c.isDigit = true) →
      (∀ d, rest.head? = some d → isNd d = false) →
      1 ≤ digitsToNat ds → digitsToNat ds ≤ 255 →
      digitsToNat ds ≤ vals.length →
      interReplaceAll vals ('%' :: (ds ++ rest)) =
        (vals.getD (digitsToNat ds - 1) "").data ++ interReplaceAll vals rest) := by
  refine ⟨interReplaceAll_copy vals, interReplaceAll_percent_nomatch vals, ?_⟩
  intro ds rest hne hds hrest h1 h2 h3
  rw [interReplaceAll_match vals ds rest hne
      (fun c hc => isDigit_isNd c (hds c hc)) hrest,
    matchReplacement_in_range ds vals (List.all_eq_true.2 hds) h1 h2 h3]

/-- Witness for C3: the match `%1` with values `["88", "100"]` is replaced by
the first value. -/
theorem interpolation_substitutes_in_range_witness :
    interReplaceAll ["88", "100"] ('%' :: (['1'] ++ [])) =
      (["88", "100"].getD 0 "").data ++ interReplaceAll ["88", "100"] [] :=
  (interpolation_substitutes_in_range ["88", "100"]).2.2 ['1'] []
    (by decide) (by decide) (by simp) (by decide) (by decide) (by decide)

/-- **C4.** A match whose digit run fails the integer parse (a non-ASCII
`\d` digit in the run, or a value over 255), or whose parsed ordinal is 0 or
exceeds the number of supplied values, is replaced by the empty string; in
particular `interpolate "%0" vals = ""` whatever the values.  `hlen` bounds
the value list below `2 ^ 64`, true of every Rust `Vec` (for ordinal 0 the
wrapped index is `2 ^ 64 - 1`). -/
theorem interpolation_invalid_ordinal_empty (vals : List String)
    (hlen : vals.length < usizeMod) :
    (∀ ds rest, ds ≠ [] → (∀ c ∈ ds, isNd c = true) →
      (∀ d, rest.head? = some d → isNd d = false) →
      (ds.all Char.isDigit = false ∨ digitsToNat ds = 0 ∨
        255 < digitsToNat ds ∨ vals.length < digitsToNat ds) →
      interReplaceAll vals ('%' :: (ds ++ rest)) = interReplaceAll vals rest) ∧
    interpolate "%0" vals = "" := by
  constructor
  · intro ds rest hne hds hrest h
    rw [interReplaceAll_match vals ds rest hne hds hrest,
      matchReplacement_invalid ds vals hlen h]
    rfl
  · unfold interpolate
    have hdata : "%0".data = '%' :: (['0'] ++ []) := rfl
    rw [hdata]
    rw [interReplaceAll_match vals ['0'] [] (by decide) (by decide) (by simp),
      matchReplacement_invalid ['0'] vals hlen (Or.inr (Or.inl (by decide)))]
    rw [interReplaceAll]
    rfl

/-- Witness for C4: `%0` with one supplied value yields the empty string, and
the Unicode-digit match `%١` (whose run fails the `u8` parse) is likewise
replaced by the empty string. -/
theorem interpolation_invalid_ordinal_empty_witness :
    interpolate "%0" ["a"] = "" ∧
    interReplaceAll ["a"] ('%' :: (['١'] ++ [])) = interReplaceAll ["a"] [] :=
  ⟨(interpolation_invalid_ordinal_empty ["a"] (by norm_num [usizeMod])).2,
   (interpolation_invalid_ordinal_empty ["a"] (by norm_num [usizeMod])).1
     ['١'] [] (by decide) (by decide) (by simp) (Or.inl (by decide))⟩

/-- **C5.** Language identifiers differing only in case select the same
table: translations after `set_lang` agree whenever the uppercased ids agree (so
for "en" and "EN"), and the same uppercasing convention is applied by the
constructor, by `set_lang`, and by the loader to filename stems. -/
theorem language_id_case_insensitive :
    (∀ (st : I18n) k ns l1 l2, toUppercase l1 = toUppercase l2 →
      (st.set_lang l1).translate k ns = (st.set_lang l2).translate k ns) ∧
    (∀ l, (I18n.new l).lang = toUppercase l) ∧
    (∀ (st : I18n) l, (st.set_lang l).lang = toUppercase l) ∧
    (∀ map e stem ext src, e.isDir = false →
      e.fileName.bind rsplitOnceDot = some (stem, ext) →
      toLowercase ext = "json" → e.parsed = some src →
      loadStep map e = HMap.insert map (toUppercase stem) src) := by
  refine ⟨?_, fun l => rfl, fun st l => rfl, ?_⟩
  · intro st k ns l1 l2 h
    unfold I18n.translate I18n.set_lang
    rw [h]
  · intro map e stem ext src hdir hsplit hjson hparse
    unfold loadStep
    simp [hdir, hsplit, hjson, hparse]

/-- Witness for C5: after `set_lang "en"` and `set_lang "EN"` the same
translation is produced. -/
theorem language_id_case_insensitive_witness :
    ((I18n.new "cn").set_lang "en").translate "hi" none =
      ((I18n.new "cn").set_lang "EN").translate "hi" none :=
  language_id_case_insensitive.1 (I18n.new "cn") "hi" none "en" "EN" (by decide)

/-- **C7.** The directory loader: a failed `read_dir` yields the empty map;
otherwise it folds over the direct entries, skipping directories, entries
whose filename has no `.`, entries whose extension is not `json`
case-insensitively, and entries whose parse fails — each skip leaves the map
untouched — and inserts every successfully parsed file under its uppercased
stem. -/
theorem load_source_behavior :
    load_source none = HMap.empty ∧
    (∀ entries, load_source (some entries) =
      entries.foldl loadStep HMap.empty) ∧
    (∀ map e, e.isDir = true → loadStep map e = map) ∧
    (∀ map e, e.isDir = false → e.fileName.bind rsplitOnceDot = none →
      loadStep map e = map) ∧
    (∀ map e stem ext, e.isDir = false →
      e.fileName.bind rsplitOnceDot = some (stem, ext) →
      toLowercase ext ≠ "json" → loadStep map e = map) ∧
    (∀ map e stem ext, e.isDir = false →
      e.fileName.bind rsplitOnceDot = some (stem, ext) →
      toLowercase ext = "json" → e.parsed = none → loadStep map e = map) ∧
    (∀ map e stem ext src, e.isDir = false →
      e.fileName.bind rsplitOnceDot = some (stem, ext) →
      toLowercase ext = "json" → e.parsed = some src →
      loadStep map e = HMap.insert map (toUppercase stem) src) := by
  refine ⟨rfl, fun entries => rfl, ?_, ?_, ?_, ?_, ?_⟩
  · intro map e hdir
    unfold loadStep
    simp [hdir]
  · intro map e hdir hsplit
    unfold loadStep
    simp [hdir, hsplit]
  · intro map e stem ext hdir hsplit hjson
    unfold loadStep
    simp [hdir, hsplit, hjson]
  · intro map e stem ext hdir hsplit hjson hparse
    unfold loadStep
    simp [hdir, hsplit, hjson, hparse]
  · intro map e stem ext src hdir hsplit hjson hparse
    unfold loadStep
    simp [hdir, hsplit, hjson, hparse]

/-- Witness for C7: concrete entries — a subdirectory, a dot-less filename,
a `.txt` file, an unparsable `.json` file, and a good `.json` file. -/
theorem load_source_behavior_witness :
    load_source none = HMap.empty ∧
    loadStep HMap.empty ⟨true, some "sub", none⟩ = HMap.empty ∧
    loadStep HMap.empty ⟨false, some "README", none⟩ = HMap.empty ∧
    loadStep HMap.empty ⟨false, some "en.txt", some sampleSource⟩ =
      HMap.empty ∧
    loadStep HMap.empty ⟨false, some "bad.json", none⟩ = HMap.empty ∧
    loadStep HMap.empty ⟨false, some "en.json", some sampleSource⟩ =
      HMap.insert HMap.empty (toUppercase "en") sampleSource :=
  ⟨load_source_behavior.1,
   load_source_behavior.2.2.1 HMap.empty _ rfl,
   load_source_behavior.2.2.2.1 HMap.empty _ rfl (by decide),
   load_source_behavior.2.2.2.2.1 HMap.empty _ "en" "txt" rfl (by decide)
     (by decide),
   load_source_behavior.2.2.2.2.2.1 HMap.empty _ "bad" "json" rfl (by decide)
     (by decide) rfl,
   load_source_behavior.2.2.2.2.2.2 HMap.empty _ "en" "json" sampleSource rfl
     (by decide) (by decide) rfl⟩

/-- **C8.** `trans_with_inter` is exactly `interpolate` applied to the result
of `translate`; in particular, when the lookup fails the interpolator runs on
the raw key. -/
theorem trans_with_inter_unconditional :
    (∀ (st : I18n) k vals ns,
      st.trans_with_inter k vals ns = interpolate (st.translate k ns) vals) ∧
    (∀ (st : I18n) k vals ns,
      (HMap.find? st.source st.lang).bind (fun src => src.get_val k ns) =
        none →
      st.trans_with_inter k vals ns = interpolate k vals) := by
  constructor
  · intro st k vals ns
    rfl
  · intro st k vals ns h
    unfold I18n.trans_with_inter I18n.translate
    rw [h]
    rfl

/-- Witness for C8: on the fresh store, the untranslated key is still piped
through the interpolator. -/
theorem trans_with_inter_unconditional_witness :
    (I18n.new "en").trans_with_inter "hi %1" ["x"] none =
      interpolate "hi %1" ["x"] :=
  trans_with_inter_unconditional.2 (I18n.new "en") "hi %1" ["x"] none rfl

/-- **C9.** `set_lang` replaces only the active language (tables untouched);
`set_source` replaces the whole table map with the freshly loaded one,
independently of the old tables, and leaves the active language unchanged. -/
theorem set_lang_set_source_frame :
    (∀ (st : I18n) l, (st.set_lang l).lang = toUppercase l ∧
      (st.set_lang l).source = st.source) ∧
    (∀ (st : I18n) dir, (st.set_source dir).source = load_source dir ∧
      (st.set_source dir).lang = st.lang) :=
  ⟨fun _ _ => ⟨rfl, rfl⟩, fun _ _ => ⟨rfl, rfl⟩⟩

end EasyI18n
